import Mathlib

/-!
# LiteTable table view engine — a shallow embedding with verified properties

This file embeds the core of `src/LiteTable.js` (the `LiteTableManager`
class together with its helpers `getTextContent`, `isDateInRange` and
`parseDate`) into Lean and proves properties of the embedding.

Modelling conventions:

* DOM strings are `String`; machine numbers that are always integral are
  `Int`/`Nat`.  JavaScript numbers that may be fractional (values produced
  by `parseFloat`/`Number`) are modelled as unreduced decimals
  `m * 10 ^ e` (`Dec` below), which keeps every computation inside `Int`.
* `Array.prototype.sort` is required by ES2019 to be stable, and the ES
  `SortCompare` operation observes a comparator only through the sign of
  its result (a `NaN` result counts as `+0`).  We therefore model it by
  the stable `List.insertionSort` driven by the boolean relation
  `comparator a b ≤ 0`.
* Thrown exceptions are modelled with `Except String`; the only throw
  reachable from the update cycle is the one in `isDateInRange`.
* `Date` values are modelled as days since 1970-01-01 in the proleptic
  Gregorian calendar; all dates handled by the engine sit at local
  midnight (the code calls `setHours(0,0,0,0)`), so day resolution is
  faithful.  The current date is an explicit `CivilDate` parameter.
-/

namespace LiteTable

/-! ## JS string primitives -/

/-- The strict date pattern `^\d{2}\/\d{2}\/\d{4}$` used throughout the
source (`\d` is ASCII `0-9`). -/
def dateRe (s : String) : Bool :=
  match s.data with
  | [d1, d2, s1, m1, m2, s2, y1, y2, y3, y4] =>
    d1.isDigit && d2.isDigit && s1 == '/' && m1.isDigit && m2.isDigit &&
      s2 == '/' && y1.isDigit && y2.isDigit && y3.isDigit && y4.isDigit
  | _ => false

/-- `s.replace(',', '.')` with a string pattern replaces only the first
occurrence (used for the comma decimal separator). -/
def replaceFirstCommaAux : List Char → List Char
  | [] => []
  | c :: cs => if c == ',' then '.' :: cs else c :: replaceFirstCommaAux cs

def replaceFirstComma (s : String) : String :=
  ⟨replaceFirstCommaAux s.data⟩

/-- `value.replace(/<[^>]*>/g, '')` from the constructor's auto-sort scan:
each `<` followed by a first `>` is removed together with the characters
between them; a `<` with no later `>` is kept (no further match is then
possible).  Fuel-based so that the kernel can evaluate it; the fuel is the
length of the string, which bounds the number of removals. -/
def stripTagsGo : Nat → List Char → List Char
  | 0, cs => cs
  | _ + 1, [] => []
  | f + 1, c :: cs =>
    if c == '<' then
      if cs.contains '>' then stripTagsGo f ((cs.dropWhile (· ≠ '>')).drop 1)
      else c :: cs
    else c :: stripTagsGo f cs

def stripTags (s : String) : String :=
  ⟨stripTagsGo s.data.length s.data⟩

/-- JS `String.prototype.trim`: strip whitespace from both ends. -/
def jsTrim (s : String) : String :=
  ⟨s.data.dropWhile Char.isWhitespace |>.reverse.dropWhile Char.isWhitespace
    |>.reverse⟩

/-! ## JS numbers

`Dec` is an unreduced decimal `m * 10 ^ e`.  Only the sign of differences
of such values is ever observed by the engine (through sort comparators
and `isNaN`), so an exact decimal representation is a faithful model of
the binary doubles produced by `parseFloat`/`Number` for these uses. -/

structure Dec where
  m : Int
  e : Int
  deriving DecidableEq, Repr

def digitsToInt (cs : List Char) : Int :=
  cs.foldl (fun acc c => acc * 10 + (c.toNat - 48 : Nat)) 0

/-- Sign of the difference of two decimals: an integer with the same sign
as `a - b`. -/
def decSub (a b : Dec) : Int :=
  let k := min a.e b.e
  a.m * 10 ^ (a.e - k).toNat - b.m * 10 ^ (b.e - k).toNat

/-- `parseFloat(s)`: skip leading whitespace, optional sign, then the
longest prefix shaped `digits [. digits] [e|E [sign] digits]`; `none`
models `NaN` (no digits at all).  Trailing junk is ignored.  (`Infinity`
literals and hex are not modelled; no table cell in scope uses them.) -/
def jsParseFloat (s : String) : Option Dec :=
  let cs := s.data.dropWhile Char.isWhitespace
  let (sgn, cs) : Int × List Char :=
    match cs with
    | '-' :: t => (-1, t)
    | '+' :: t => (1, t)
    | _ => (1, cs)
  let intPart := cs.takeWhile Char.isDigit
  let cs := cs.dropWhile Char.isDigit
  let (fracPart, cs) : List Char × List Char :=
    match cs with
    | '.' :: t => (t.takeWhile Char.isDigit, t.dropWhile Char.isDigit)
    | _ => ([], cs)
  if intPart.isEmpty && fracPart.isEmpty then none
  else
    let mant := sgn * digitsToInt (intPart ++ fracPart)
    let e0 : Int := -(fracPart.length : Int)
    let expPart : Int :=
      match cs with
      | 'e' :: t | 'E' :: t =>
        let (esgn, t) : Int × List Char :=
          match t with
          | '-' :: u => (-1, u)
          | '+' :: u => (1, u)
          | _ => (1, t)
        let ds := t.takeWhile Char.isDigit
        if ds.isEmpty then 0 else esgn * digitsToInt ds
      | _ => 0
    some ⟨mant, e0 + expPart⟩

/-- `Number(s)` (string-to-number coercion, as observed through `isNaN`):
whitespace-trimmed, the empty string is `0`, otherwise the whole string
must be shaped `[sign] (digits [. digits] | . digits) [e|E [sign] digits]`;
`none` models `NaN`.  (`Infinity` literals and hex/octal/binary literals
are not modelled; no table cell in scope uses them.) -/
def jsToNumberCore (cs0 : List Char) : Option Dec :=
  let cs := cs0.dropWhile Char.isWhitespace |>.reverse.dropWhile Char.isWhitespace |>.reverse
  if cs.isEmpty then some ⟨0, 0⟩
  else
    let (sgn, cs) : Int × List Char :=
      match cs with
      | '-' :: t => (-1, t)
      | '+' :: t => (1, t)
      | _ => (1, cs)
    let intPart := cs.takeWhile Char.isDigit
    let cs := cs.dropWhile Char.isDigit
    let (fracPart, cs) : List Char × List Char :=
      match cs with
      | '.' :: t => (t.takeWhile Char.isDigit, t.dropWhile Char.isDigit)
      | _ => ([], cs)
    if intPart.isEmpty && fracPart.isEmpty then none
    else
      let mant := sgn * digitsToInt (intPart ++ fracPart)
      let e0 : Int := -(fracPart.length : Int)
      match cs with
      | [] => some ⟨mant, e0⟩
      | 'e' :: t | 'E' :: t =>
        let (esgn, t) : Int × List Char :=
          match t with
          | '-' :: u => (-1, u)
          | '+' :: u => (1, u)
          | _ => (1, t)
        let ds := t.takeWhile Char.isDigit
        if ds.isEmpty || !(t.dropWhile Char.isDigit).isEmpty then none
        else some ⟨mant, e0 + esgn * digitsToInt ds⟩
      | _ => none

def jsToNumber (s : String) : Option Dec :=
  jsToNumberCore s.data

/-- Truncation toward zero (the `ToIntegerOrInfinity` coercion applied by
the `Date` constructor to its arguments). -/
def decTrunc (a : Dec) : Int :=
  if 0 ≤ a.e then a.m * 10 ^ a.e.toNat else a.m / 10 ^ (-a.e).toNat

/-! ## JS dates -/

/-- Days since 1970-01-01 of the proleptic-Gregorian civil date `(y, m, d)`
with `m ∈ [1,12]` (the standard `days_from_civil` computation, written
with floor division). -/
def daysFromCivil (y m d : Int) : Int :=
  let y := y - (if m ≤ 2 then 1 else 0)
  let era := Int.fdiv y 400
  let yoe := y - era * 400
  let mp := Int.emod (m + 9) 12
  let doy := Int.fdiv (153 * mp + 2) 5 + d - 1
  let doe := yoe * 365 + Int.fdiv yoe 4 - Int.fdiv yoe 100 + doy
  era * 146097 + doe - 719468

/-- `new Date(year, monthIndex, day)` at midnight, as a day number.
Out-of-range `monthIndex`/`day` are normalized by carrying, exactly as the
`Date` constructor does; two-digit years are mapped to `1900 + year`. -/
def jsDateDays (year monthIndex day : Int) : Int :=
  let year := if 0 ≤ year ∧ year ≤ 99 then year + 1900 else year
  let y := year + Int.fdiv monthIndex 12
  let m := Int.emod monthIndex 12 + 1
  daysFromCivil y m 1 + (day - 1)

/-- `s.split('/')` over the character list (`''.split('/')` is `['']`). -/
def splitOnSlash : List Char → List (List Char)
  | [] => [[]]
  | c :: cs =>
    if c == '/' then [] :: splitOnSlash cs
    else
      match splitOnSlash cs with
      | [] => [[c]]
      | p :: ps => (c :: p) :: ps

/-- `parseDate(dateStr)` from the source: `dateStr.split('/').map(Number)`
destructured as `[day, month, year]`, then `new Date(year, month - 1, day)`.
`none` models an `Invalid Date` (some component coerced to `NaN`). -/
def parseDate (s : String) : Option Int := do
  let parts := splitOnSlash s.data
  let day ← parts.get? 0 >>= jsToNumberCore
  let month ← parts.get? 1 >>= jsToNumberCore
  let year ← parts.get? 2 >>= jsToNumberCore
  pure (jsDateDays (decTrunc year) (decTrunc month - 1) (decTrunc day))

/-- The engine's explicit "current date" parameter (`new Date()` truncated
to local midnight), as a civil date with `m ∈ [1,12]`. -/
structure CivilDate where
  y : Int
  m : Int
  d : Int
  deriving DecidableEq, Repr

def CivilDate.days (t : CivilDate) : Int :=
  jsDateDays t.y (t.m - 1) t.d

/-- `today.getDay()`: day of week, Sunday = 0 (1970-01-01 was a Thursday). -/
def CivilDate.getDay (t : CivilDate) : Int :=
  Int.emod (t.days + 4) 7

/-- The switch of `isDateInRange` (source lines 53-81): each named bucket
is tested with inclusive day-resolution bounds; an unrecognized bucket
value falls through to `true`. -/
def bucketPass (today : CivilDate) (date : Int) (range : String) : Bool :=
  let todayD := today.days
  match range with
  | "today" => decide (date = todayD)
  | "week" =>
    let startOfWeek := todayD - today.getDay
    let endOfWeek := startOfWeek + 6
    decide (startOfWeek ≤ date ∧ date ≤ endOfWeek)
  | "month" =>
    let startOfMonth := jsDateDays today.y (today.m - 1) 1
    let endOfMonth := jsDateDays today.y today.m 0
    decide (startOfMonth ≤ date ∧ date ≤ endOfMonth)
  | "quarter" =>
    let currentQuarter := Int.fdiv (today.m - 1) 3
    let startOfQuarter := jsDateDays today.y (currentQuarter * 3) 1
    let endOfQuarter := jsDateDays today.y ((currentQuarter + 1) * 3) 0
    decide (startOfQuarter ≤ date ∧ date ≤ endOfQuarter)
  | "year" =>
    let startOfYear := jsDateDays today.y 0 1
    let endOfYear := jsDateDays today.y 11 31
    decide (startOfYear ≤ date ∧ date ≤ endOfYear)
  | _ => true

/-- `isDateInRange(dateStr, range)` (source lines 42-82).  The regex guard
runs first and throws on any non-`DD/MM/YYYY` text — the only throw in
the function; afterwards the bucket switch returns a boolean. -/
def isDateInRange (today : CivilDate) (dateStr range : String) :
    Except String Bool :=
  if !dateRe dateStr then
    .error "Invalid date format. Use DD/MM/YYYY"
  else
    -- regex-matched strings always parse to a valid date; the `getD` arm
    -- is unreachable
    .ok (bucketPass today ((parseDate dateStr).getD 0) range)

/-! ## Data model

A *Cell Snapshot* captures one cell at initialization time
(constructor lines 139-148): raw markup, whitespace-trimmed text content,
`title` attribute (or `''`), and all non-`style` attributes. -/

structure Cell where
  innerHTML : String
  textContent : String
  title : String
  attributes : List (String × String)
  deriving DecidableEq, Repr

/-- A source `<td>` as found in the initial markup, before snapshotting. -/
structure SourceCell where
  innerHTML : String
  rawText : String
  titleAttr : Option String
  attributes : List (String × String)
  deriving DecidableEq, Repr

/-- `getElementAttributes` (lines 184-192): every attribute except `style`. -/
def getElementAttributes (attrs : List (String × String)) :
    List (String × String) :=
  attrs.filter (fun a => a.1 ≠ "style")

/-- Snapshot of one source cell (constructor lines 142-147).
`getTextContent` falls back over `textContent`/`innerText`; both are the
cell's text, modelled by `rawText`. -/
def snapshotCell (c : SourceCell) : Cell :=
  { innerHTML := c.innerHTML
    textContent := jsTrim c.rawText
    title := c.titleAttr.getD ""
    attributes := getElementAttributes c.attributes }

/-- A *Row Record* (one entry of `rowsCache`, lines 139-148):
`originalIndex`, the detached clone of the original row (`element`, whose
per-cell displayable content we keep), and the cell snapshots. -/
structure RowRecord where
  originalIndex : Nat
  element : List SourceCell
  cells : List Cell
  deriving DecidableEq, Repr

/-- `rowsCache` as built by the constructor: `originalIndex` is the row's
position in the source order (lines 124-127 and 139-148). -/
def buildCache (rows : List (List SourceCell)) : List RowRecord :=
  rows.enum.map fun p =>
    { originalIndex := p.1
      element := p.2
      cells := p.2.map snapshotCell }

/-- Cell text as read during sorting/filtering:
`rowData.cells[colIndex]?.textContent || ''`. -/
def cellText (r : RowRecord) (col : Nat) : String :=
  ((r.cells.get? col).map Cell.textContent).getD ""

/-! ## Sort Engine -/

inductive Direction where
  | asc
  | desc
  deriving DecidableEq, Repr

inductive ColType where
  | text
  | number
  | date
  deriving DecidableEq, Repr

/-- Column-type inference from `sortRows` (lines 595-605): take the first
row whose cell at `columnIndex` *exists* (`find(r => r.cells[columnIndex])`);
if its (already trimmed) text is non-empty, classify it as a date when it
matches `DD/MM/YYYY`, else as a number when
`!isNaN(sampleValue.replace(',', '.'))`, else text; with no sample the
type stays text. -/
def inferColumnType (cache : List RowRecord) (columnIndex : Nat) : ColType :=
  match cache.find? (fun r => (r.cells.get? columnIndex).isSome) with
  | none => .text
  | some r =>
    let sampleValue := cellText r columnIndex
    if sampleValue = "" then .text
    else if dateRe sampleValue then .date
    else if (jsToNumber (replaceFirstComma sampleValue)).isSome then .number
    else .text

/-- The column-type inference as the specification words it ("from the
first row whose target cell is non-empty", claim C6): written from the
spec, for comparison with `inferColumnType` above, which is written from
the source. -/
def inferColumnTypeSpec (cache : List RowRecord) (columnIndex : Nat) :
    ColType :=
  match cache.find? (fun r => cellText r columnIndex ≠ "") with
  | none => .text
  | some r =>
    let sampleValue := cellText r columnIndex
    if dateRe sampleValue then .date
    else if (jsToNumber (replaceFirstComma sampleValue)).isSome then .number
    else .text

/-- The locale collation `localeCompare(…, 'fr', { sensitivity: 'base',
numeric: true })` of the text branch.  Modelled from the spec: ICU
collation is not reproducible exactly; we model its observable contract —
case-insensitive comparison in which maximal digit substrings are compared
by magnitude rather than lexicographically, everything else by code
point.  No theorem in this file depends on its internals. -/
def localeCompareGo : Nat → List Char → List Char → Int
  | 0, _, _ => 0
  | _ + 1, [], [] => 0
  | _ + 1, [], _ :: _ => -1
  | _ + 1, _ :: _, [] => 1
  | f + 1, a :: as, b :: bs =>
    if a.isDigit && b.isDigit then
      let da := (a :: as).takeWhile Char.isDigit
      let db := (b :: bs).takeWhile Char.isDigit
      let va := digitsToInt da
      let vb := digitsToInt db
      if va < vb then -1
      else if vb < va then 1
      else localeCompareGo f ((a :: as).dropWhile Char.isDigit)
        ((b :: bs).dropWhile Char.isDigit)
    else
      let la := a.toLower
      let lb := b.toLower
      if la < lb then -1
      else if lb < la then 1
      else localeCompareGo f as bs

def localeCompare (a b : String) : Int :=
  localeCompareGo (a.data.length + b.data.length) a.data b.data

/-- The comparator passed to `this.rowsCache.sort` in `sortRows`
(lines 607-627).  The result is only ever observed through its sign
(ES `SortCompare`; a `NaN` result counts as `+0`), so each branch returns
an integer with the sign of the source expression: empty keys compare as
`±1 * multiplier`, dates by difference of day numbers, numbers by the
sign of `(aNum - bNum)` (cross-multiplied decimals; `NaN` operands give
`0`), text by `localeCompare`. -/
def rowCompare (columnType : ColType) (multiplier : Int) (columnIndex : Nat)
    (a b : RowRecord) : Int :=
  let aValue := cellText a columnIndex
  let bValue := cellText b columnIndex
  if aValue = "" ∧ bValue = "" then 0
  else if aValue = "" then 1 * multiplier
  else if bValue = "" then -1 * multiplier
  else
    match columnType with
    | .date =>
      match parseDate aValue, parseDate bValue with
      | some aDate, some bDate => (aDate - bDate) * multiplier
      | _, _ => 0
    | .number =>
      match jsParseFloat (replaceFirstComma aValue),
          jsParseFloat (replaceFirstComma bValue) with
      | some aNum, some bNum => decSub aNum bNum * multiplier
      | _, _ => 0
    | .text => localeCompare aValue bValue * multiplier

/-- JS `Array.prototype.sort` is stable (ES2019) and orders `a` before `b`
exactly when the comparator is `≤ 0` on `(a, b)`; we model it by the
stable `List.insertionSort`. -/
def jsSort {α : Type} (cmp : α → α → Int) (l : List α) : List α :=
  List.insertionSort (fun a b => cmp a b ≤ 0) l

/-- `sortRows(columnIndex, direction)` (lines 592-628): infer the column
type once, then sort the Row Cache in place. -/
def sortRows (cache : List RowRecord) (columnIndex : Nat)
    (direction : Direction) : List RowRecord :=
  let multiplier : Int := if direction = .asc then 1 else -1
  let columnType := inferColumnType cache columnIndex
  jsSort (rowCompare columnType multiplier columnIndex) cache

/-- The restore sort of the tri-state cycle's third activation
(lines 553 and 585): `rowsCache.sort((a, b) => a.originalIndex - b.originalIndex)`. -/
def restoreSort (cache : List RowRecord) : List RowRecord :=
  jsSort (fun a b => (a.originalIndex : Int) - b.originalIndex) cache

/-! ## Filter Engine

The three filter maps are keyed by column index; `Object.entries` yields
integer-like keys in ascending numeric order, so each map is a list of
`(column, spec)` pairs in that order. -/

/-- A date-range filter spec: `{from: value || null, to: value || null}`
(lines 310-313).  The `<input type="date">` values are civil dates; the
code compares them to cell dates at day resolution after
`setHours(0,0,0,0)`. -/
structure DateRange where
  fromB : Option CivilDate
  toB : Option CivilDate
  deriving DecidableEq, Repr

/-- The bucketed-date filter loop of `applyFilters` (lines 503-507): skip
inactive entries (`!filterVal`), otherwise evaluate `isDateInRange` on the
cell text — its throw propagates — and return `false` on the first active
bucket the row fails. -/
def dateFiltersLoop (today : CivilDate) (r : RowRecord) :
    List (Nat × String) → Except String Bool
  | [] => .ok true
  | (colIndex, filterVal) :: rest =>
    if filterVal = "" then dateFiltersLoop today r rest
    else
      match isDateInRange today (cellText r colIndex) filterVal with
      | .error e => .error e
      | .ok false => .ok false
      | .ok true => dateFiltersLoop today r rest

/-- One active date-range check from `applyFilters` (lines 510-522): a
cell not matching `DD/MM/YYYY` fails the filter (`return false`, no
throw); otherwise the parsed cell date must lie within the present
bounds, compared at day resolution. -/
def rangeCheck (r : RowRecord) (colIndex : Nat) (range : DateRange) : Bool :=
  let cellVal := cellText r colIndex
  if !dateRe cellVal then false
  else
    -- regex-matched strings always parse; the `getD` arm is unreachable
    let cellDate := (parseDate cellVal).getD 0
    if (match range.fromB with
        | some f => decide (cellDate < f.days)
        | none => false) then false
    else if (match range.toB with
        | some t => decide (t.days < cellDate)
        | none => false) then false
    else true

/-- The date-range filter loop of `applyFilters` (lines 508-523): skip
entries with both bounds `null`; an active entry whose check fails ends
the row's evaluation with `false`. -/
def rangeFiltersLoop (r : RowRecord) :
    List (Nat × DateRange) → Bool
  | [] => true
  | (colIndex, range) :: rest =>
    if range.fromB = none ∧ range.toB = none then rangeFiltersLoop r rest
    else if !rangeCheck r colIndex range then false
    else rangeFiltersLoop r rest

/-- The categorical filter loop of `applyFilters` (lines 524-528): skip
inactive entries, otherwise the cell's (trimmed) text must equal the
filter value exactly (`!==` is case-sensitive). -/
def valueFiltersLoop (r : RowRecord) :
    List (Nat × String) → Bool
  | [] => true
  | (colIndex, filterVal) :: rest =>
    if filterVal = "" then valueFiltersLoop r rest
    else if cellText r colIndex ≠ filterVal then false
    else valueFiltersLoop r rest

/-- The Filter State of one manager instance. -/
structure FilterState where
  currentDateFilters : List (Nat × String)
  currentDateRangeFilters : List (Nat × DateRange)
  currentValueFilters : List (Nat × String)
  deriving DecidableEq, Repr

/-- The `applyFilters` row predicate (lines 502-529): the three loops run
in order, each early `return false` skipping the rest. -/
def rowPasses (today : CivilDate) (fs : FilterState) (r : RowRecord) :
    Except String Bool :=
  match dateFiltersLoop today r fs.currentDateFilters with
  | .error e => .error e
  | .ok false => .ok false
  | .ok true =>
    .ok (rangeFiltersLoop r fs.currentDateRangeFilters &&
      valueFiltersLoop r fs.currentValueFilters)

/-- `Array.prototype.filter` with a predicate that may throw: elements are
visited in order and the first throw aborts the traversal. -/
def exceptFilter {α ε : Type} (f : α → Except ε Bool) :
    List α → Except ε (List α)
  | [] => .ok []
  | a :: l =>
    match f a with
    | .error e => .error e
    | .ok true => (exceptFilter f l).map (a :: ·)
    | .ok false => exceptFilter f l

/-- `applyFilters()` (lines 501-531): recompute the Filtered View from the
Row Cache.  On a throw the assignment to `filteredRows` does not happen. -/
def applyFilters (today : CivilDate) (fs : FilterState)
    (rowsCache : List RowRecord) : Except String (List RowRecord) :=
  exceptFilter (rowPasses today fs) rowsCache

/-! ## Paginator -/

/-- `displayLimit`: a positive page size, or `Infinity` (the `'all'`
branch of the display-limit handler, line 242). -/
inductive JsLimit where
  | fin (k : Nat)
  | inf
  deriving DecidableEq, Repr

/-- `Math.ceil(filteredRows.length / displayLimit)` (line 444).  For a
finite positive limit this is the rounded-up quotient; for
`displayLimit = Infinity` JS computes `Math.ceil(len / Infinity) =
Math.ceil(0) = 0`. -/
def totalPagesOf (len : Nat) : JsLimit → Nat
  | .fin k => (len + k - 1) / k
  | .inf => 0

/-- An index value flowing into the render loop: a finite number, or the
result of `Infinity * 0 = NaN`, or `Infinity` itself. -/
inductive JsIdx where
  | nan
  | inf
  | fin (n : Nat)
  deriving DecidableEq, Repr

/-- `displayLimit * page` (lines 449-452). `Infinity * 0 = NaN` and
`Infinity * n = Infinity` for positive `n`. -/
def limitMul : JsLimit → Nat → JsIdx
  | .fin k, n => .fin (k * n)
  | .inf, 0 => .nan
  | .inf, _ + 1 => .inf

/-- `Math.min(displayLimit * currentPageIndex, filteredRows.length)`
(lines 450-453). `Math.min(NaN, _) = NaN`. -/
def jsMin (a : JsIdx) (len : Nat) : JsIdx :=
  match a with
  | .nan => .nan
  | .inf => .fin len
  | .fin n => .fin (min n len)

/-- The index sequence of the render loop
`for (let i = minIndex; i < maxIndex; i++)` (line 460): a numeric loop
for finite bounds; a `NaN` or `Infinity` bound makes the guard `i <
maxIndex` fail immediately (`NaN < x` and `Infinity < x` are false, and
`i < NaN` is false).  A `maxIndex` of `Infinity` cannot occur: it is
produced by `jsMin`. -/
def loopIndices : JsIdx → JsIdx → List Nat
  | .fin lo, .fin hi => List.range' lo (hi - lo)
  | _, _ => []

/-! ## Reconciler (row pooling) -/

/-- A rendered row surface (`<tr>` handle): identity, displayed per-cell
content, and the `data-original-index` tag. -/
structure SurfCell where
  innerHTML : String
  title : String
  attributes : List (String × String)
  deriving DecidableEq, Repr

structure Surface where
  sid : Nat
  cells : List SurfCell
  originalIndex : Nat
  deriving DecidableEq, Repr

/-- Upsert of one attribute (`setAttribute`). -/
def setAttr (attrs : List (String × String)) (name val : String) :
    List (String × String) :=
  if attrs.any (fun a => a.1 = name) then
    attrs.map (fun a => if a.1 = name then (name, val) else a)
  else attrs ++ [(name, val)]

/-- Patch one reused cell from a snapshot (lines 466-482): overwrite
`innerHTML`; set `title` from the snapshot or remove it when the snapshot
has none; then set every snapshot attribute (attributes absent from the
snapshot are left on the surface). -/
def patchCell (tc : SurfCell) (snap : Cell) : SurfCell :=
  let tc := { tc with innerHTML := snap.innerHTML, title := snap.title }
  { tc with
    attributes :=
      snap.attributes.foldl
        (fun acc a =>
          if a.1 ≠ "innerHTML" then setAttr acc a.1 a.2 else acc)
        (if snap.title = "" then tc.attributes.filter (fun a => a.1 ≠ "title")
         else setAttr tc.attributes "title" snap.title) }

/-- Patch a pooled surface: the loop `for j in 0..rowData.cells.length`
only touches surface cells that exist (`if (tr.cells[j])`); surface cells
beyond the snapshot's cell count are left as they are. -/
def patchSurface (tr : Surface) (rowData : RowRecord) : Surface :=
  { tr with
    cells :=
      (tr.cells.enum.map fun p =>
        match rowData.cells.get? p.1 with
        | some snap => patchCell p.2 snap
        | none => p.2)
    originalIndex := rowData.originalIndex }

/-- A fresh surface: `rowData.element.cloneNode(true)` (line 484), showing
the original cell content captured at initialization. -/
def freshSurface (sid : Nat) (rowData : RowRecord) : Surface :=
  { sid := sid
    cells := rowData.element.map fun c =>
      { innerHTML := c.innerHTML
        title := c.titleAttr.getD ""
        attributes := c.attributes }
    originalIndex := rowData.originalIndex }

/-- Reconciler state: the displayed surfaces (`tbody` children in order),
the pool (top of stack first), and the number of surfaces allocated so
far (also the next fresh identity). -/
structure RenderState where
  tbody : List Surface
  rowPool : List Surface
  allocated : Nat
  deriving DecidableEq, Repr

/-- The fill loop (lines 460-489): for each visible row pop a pooled
surface if available and patch it, else clone a fresh one; tag it with the
row's `originalIndex` and append it. -/
def fillLoop : List RowRecord → List Surface → Nat →
    List Surface × List Surface × Nat
  | [], pool, alloc => ([], pool, alloc)
  | rowData :: rest, tr :: pool, alloc =>
    let out := fillLoop rest pool alloc
    (patchSurface tr rowData :: out.1, out.2)
  | rowData :: rest, [], alloc =>
    let out := fillLoop rest [] (alloc + 1)
    (freshSurface alloc rowData :: out.1, out.2)

/-- One render cycle (lines 455-489): detach every displayed surface onto
the pool (the while loop pushes them in document order, so the last child
ends on top), then fill the tbody from the visible slice. -/
def renderStep (visible : List RowRecord) (rs : RenderState) : RenderState :=
  let pool := rs.tbody.foldl (fun acc tr => tr :: acc) rs.rowPool
  let (tbody, pool, alloc) := fillLoop visible pool rs.allocated
  { tbody := tbody, rowPool := pool, allocated := alloc }

/-! ## View Controller -/

/-- `currentSort` (lines 133-136).  The code maintains `column = null ↔
direction = null`; both fields are kept, as in the source. -/
structure SortState where
  column : Option Nat
  direction : Option Direction
  deriving DecidableEq, Repr

structure ManagerState where
  rowsCache : List RowRecord
  filteredRows : List RowRecord
  filters : FilterState
  currentSort : SortState
  displayLimit : JsLimit
  currentPageIndex : Nat
  render : RenderState
  deriving DecidableEq, Repr

/-- The sort step of the update cycle (lines 439-441): re-sort the Row
Cache when a sort is active. -/
def sortStep (st : ManagerState) : ManagerState :=
  match st.currentSort.column, st.currentSort.direction with
  | some columnIndex, some direction =>
    { st with rowsCache := sortRows st.rowsCache columnIndex direction }
  | _, _ => st

/-- The pagination step of the update cycle (lines 444-453): clamp
`currentPageIndex` to `1` when it exceeds `totalPages`, then compute the
loop bounds of the visible slice. -/
def paginate (len : Nat) (limit : JsLimit) (page : Nat) :
    Nat × JsIdx × JsIdx :=
  let totalPages := totalPagesOf len limit
  let page := if page > totalPages then 1 else page
  let minIndex := limitMul limit (page - 1)
  let maxIndex := jsMin (limitMul limit page) len
  (page, minIndex, maxIndex)

/-- The visible slice drawn by the render loop: `filteredRows[i]` for
`i = minIndex, …, maxIndex - 1` (all indices are in range whenever the
loop runs at all). -/
def visibleSlice (filtered : List RowRecord) (limit : JsLimit)
    (page : Nat) : List RowRecord :=
  let (_, minIndex, maxIndex) := paginate filtered.length limit page
  (loopIndices minIndex maxIndex).filterMap filtered.get?

/-- `updateTable()` (lines 438-498): sort if active, refilter, clamp the
page, render the visible slice through the pool.  A throw escaping
`applyFilters` propagates out of the cycle; the state mutations already
performed (the cache sort) persist, the later ones do not happen. -/
def updateTable (today : CivilDate) (st : ManagerState) :
    ManagerState × Option String :=
  let st := sortStep st
  match applyFilters today st.filters st.rowsCache with
  | .error e => (st, some e)
  | .ok filtered =>
    let st := { st with filteredRows := filtered }
    let (page, minIndex, maxIndex) :=
      paginate filtered.length st.displayLimit st.currentPageIndex
    let visible := (loopIndices minIndex maxIndex).filterMap filtered.get?
    ({ st with
        currentPageIndex := page
        render := renderStep visible st.render }, none)

/-- `handleSort(columnIndex)` (lines 534-589): the tri-state cycle.  The
two source paths (with and without a header button) perform the same
state transition and differ only in CSS-class bookkeeping on the buttons;
the third activation re-orders the Row Cache by `originalIndex` before
the update cycle runs. -/
def handleSort (today : CivilDate) (columnIndex : Nat)
    (st : ManagerState) : ManagerState × Option String :=
  let direction : Option Direction :=
    if st.currentSort.column = some columnIndex then
      match st.currentSort.direction with
      | some .asc => some .desc
      | some .desc => none
      | none => some .asc
    else some .asc
  let st :=
    { st with
      currentSort :=
        { column := if direction.isSome then some columnIndex else none
          direction := direction } }
  let st :=
    if direction.isNone then { st with rowsCache := restoreSort st.rowsCache }
    else st
  updateTable today st

/-- The constructor's auto-sort scan (lines 161-177): outer loop over
header columns starting at index 2, inner loop over the Row Cache; the
first column with a cell whose tag-stripped trimmed text matches
`DD/MM/YYYY` becomes the initial descending sort column. -/
def autoSortCellMatches (r : RowRecord) (colIndex : Nat) : Bool :=
  match r.cells.get? colIndex with
  | none => false
  | some c =>
    let cellVal := jsTrim (stripTags c.textContent)
    cellVal ≠ "" && dateRe cellVal

def autoSortScan (headerCount : Nat) (cache : List RowRecord) : Option Nat :=
  (List.range' 2 (headerCount - 2)).find? fun colIndex =>
    cache.any (autoSortCellMatches · colIndex)

/-- The constructor (lines 104-181): build the Row Cache with
`originalIndex` in source order, start with no filters, page 1, display
limit 25, an empty pool and a cleared tbody, run the auto-sort scan, and
run one update cycle. -/
def initState (today : CivilDate) (headerCount : Nat)
    (rows : List (List SourceCell)) : ManagerState × Option String :=
  let cache := buildCache rows
  let sort : SortState :=
    match autoSortScan headerCount cache with
    | some colIndex => { column := some colIndex, direction := some .desc }
    | none => { column := none, direction := none }
  updateTable today
    { rowsCache := cache
      filteredRows := cache
      filters :=
        { currentDateFilters := []
          currentDateRangeFilters := []
          currentValueFilters := [] }
      currentSort := sort
      displayLimit := .fin 25
      currentPageIndex := 1
      render := { tbody := [], rowPool := [], allocated := 0 } }

/-- A sort operation, as quantified over by the cache-integrity claims:
a tri-state header activation, or a direct `sortRows` call. -/
inductive SortOp where
  | handle (columnIndex : Nat)
  | direct (columnIndex : Nat) (direction : Direction)
  deriving DecidableEq, Repr

def applySortOp (today : CivilDate) (st : ManagerState) : SortOp → ManagerState
  | .handle columnIndex => (handleSort today columnIndex st).1
  | .direct columnIndex direction =>
    { st with rowsCache := sortRows st.rowsCache columnIndex direction }

/-! ## Supporting lemmas: sorting permutes, the restore sort, the cache
invariant -/

theorem jsSort_perm {α : Type} (cmp : α → α → Int) (l : List α) :
    (jsSort cmp l).Perm l :=
  List.perm_insertionSort _ l

theorem sortRows_perm (cache : List RowRecord) (columnIndex : Nat)
    (direction : Direction) : (sortRows cache columnIndex direction).Perm cache :=
  jsSort_perm _ cache

theorem restoreSort_perm (cache : List RowRecord) :
    (restoreSort cache).Perm cache :=
  jsSort_perm _ cache

theorem buildCache_map_originalIndex (rows : List (List SourceCell)) :
    (buildCache rows).map RowRecord.originalIndex = List.range rows.length := by
  unfold buildCache
  rw [List.map_map]
  have : (RowRecord.originalIndex ∘ fun p : Nat × List SourceCell =>
      ({ originalIndex := p.1, element := p.2, cells := p.2.map snapshotCell } :
        RowRecord)) = Prod.fst := rfl
  rw [this, List.enum_map_fst]

theorem buildCache_pairwise_lt (rows : List (List SourceCell)) :
    (buildCache rows).Pairwise
      (fun a b => a.originalIndex < b.originalIndex) := by
  have h := List.pairwise_lt_range rows.length
  rw [← buildCache_map_originalIndex rows, List.pairwise_map] at h
  exact h

/-- Any permutation of the constructor's cache, re-sorted by
`originalIndex`, is the constructor's cache again: the restore sort's
ordering is total and transitive, the indices are pairwise distinct, and
a strictly index-sorted permutation class has a unique member. -/
theorem restoreSort_eq_of_perm {rows : List (List SourceCell)}
    {l : List RowRecord} (hp : l.Perm (buildCache rows)) :
    restoreSort l = buildCache rows := by
  have hperm : (restoreSort l).Perm (buildCache rows) :=
    (restoreSort_perm l).trans hp
  have hsorted : (restoreSort l).Pairwise
      (fun a b => (a.originalIndex : Int) - b.originalIndex ≤ 0) := by
    haveI : IsTotal RowRecord
        (fun a b => (a.originalIndex : Int) - b.originalIndex ≤ 0) :=
      ⟨fun a b => by show _ ∨ _; omega⟩
    haveI : IsTrans RowRecord
        (fun a b => (a.originalIndex : Int) - b.originalIndex ≤ 0) :=
      ⟨fun a b c h1 h2 => by omega⟩
    exact List.sorted_insertionSort _ l
  have hnodup : ((restoreSort l).map RowRecord.originalIndex).Nodup := by
    have h1 : ((restoreSort l).map RowRecord.originalIndex).Perm
        (List.range rows.length) := by
      rw [← buildCache_map_originalIndex rows]
      exact hperm.map _
    exact h1.symm.nodup (List.nodup_range rows.length)
  have hne : (restoreSort l).Pairwise
      (fun a b => a.originalIndex ≠ b.originalIndex) := by
    rw [List.Nodup, List.pairwise_map] at hnodup
    exact hnodup
  have hlt : (restoreSort l).Pairwise
      (fun a b => a.originalIndex < b.originalIndex) :=
    (hsorted.and hne).imp (fun h => by omega)
  -- two permutations, both strictly sorted on the index, coincide
  have hanti : IsAntisymm RowRecord
      (fun a b => a.originalIndex < b.originalIndex ∨ a = b) := by
    constructor
    intro a b h1 h2
    rcases h1 with h1 | h1
    · rcases h2 with h2 | h2
      · omega
      · exact h2.symm
    · exact h1
  exact @List.eq_of_perm_of_sorted _ _ hanti _ _ hperm
    (hlt.imp fun h => Or.inl h)
    ((buildCache_pairwise_lt rows).imp fun h => Or.inl h)

theorem updateTable_rowsCache (today : CivilDate) (st : ManagerState) :
    (updateTable today st).1.rowsCache = (sortStep st).rowsCache := by
  unfold updateTable
  dsimp only
  cases h : applyFilters today (sortStep st).filters (sortStep st).rowsCache <;>
    rfl

theorem sortStep_perm (st : ManagerState) :
    (sortStep st).rowsCache.Perm st.rowsCache := by
  unfold sortStep
  cases hc : st.currentSort.column <;> cases hd : st.currentSort.direction <;>
    first
      | exact List.Perm.refl _
      | exact sortRows_perm _ _ _

theorem handleSort_rowsCache_perm (today : CivilDate) (columnIndex : Nat)
    (st : ManagerState) :
    (handleSort today columnIndex st).1.rowsCache.Perm st.rowsCache := by
  unfold handleSort
  dsimp only
  rw [updateTable_rowsCache]
  refine (sortStep_perm _).trans ?_
  cases hD : (if st.currentSort.column = some columnIndex then
      match st.currentSort.direction with
      | some Direction.asc => some Direction.desc
      | some Direction.desc => none
      | none => some Direction.asc
    else some Direction.asc) with
  | none => exact restoreSort_perm _
  | some d => exact List.Perm.refl _

theorem applySortOp_perm (today : CivilDate) (st : ManagerState)
    (op : SortOp) : (applySortOp today st op).rowsCache.Perm st.rowsCache := by
  cases op with
  | handle columnIndex => exact handleSort_rowsCache_perm today columnIndex st
  | direct columnIndex direction => exact sortRows_perm _ _ _

theorem foldl_applySortOp_perm (today : CivilDate) (ops : List SortOp)
    (st : ManagerState) :
    (ops.foldl (applySortOp today) st).rowsCache.Perm st.rowsCache := by
  induction ops generalizing st with
  | nil => exact List.Perm.refl _
  | cons op ops ih =>
    exact (ih (applySortOp today st op)).trans (applySortOp_perm today st op)

theorem initState_rowsCache_perm (today : CivilDate) (headerCount : Nat)
    (rows : List (List SourceCell)) :
    (initState today headerCount rows).1.rowsCache.Perm (buildCache rows) := by
  unfold initState
  rw [updateTable_rowsCache]
  exact sortStep_perm _

theorem sortStep_currentSort (st : ManagerState) :
    (sortStep st).currentSort = st.currentSort := by
  unfold sortStep
  cases st.currentSort.column <;> cases st.currentSort.direction <;> rfl

theorem updateTable_currentSort (today : CivilDate) (st : ManagerState) :
    (updateTable today st).1.currentSort = st.currentSort := by
  unfold updateTable
  dsimp only
  cases h : applyFilters today (sortStep st).filters (sortStep st).rowsCache with
  | error e => exact sortStep_currentSort st
  | ok filtered => exact sortStep_currentSort st

/-- First activation of a column that is not the current sort column:
ascending. -/
theorem handleSort_fresh (today : CivilDate) (col : Nat) (st : ManagerState)
    (h : st.currentSort.column ≠ some col) :
    (handleSort today col st).1.currentSort =
        ⟨some col, some Direction.asc⟩ ∧
      (handleSort today col st).1.rowsCache = sortRows st.rowsCache col .asc := by
  unfold handleSort
  dsimp only
  rw [if_neg h]
  refine ⟨?_, ?_⟩
  · rw [updateTable_currentSort]
    rfl
  · rw [updateTable_rowsCache]
    unfold sortStep
    rfl

/-- Second activation: ascending becomes descending. -/
theorem handleSort_asc (today : CivilDate) (col : Nat) (st : ManagerState)
    (h : st.currentSort = ⟨some col, some Direction.asc⟩) :
    (handleSort today col st).1.currentSort =
        ⟨some col, some Direction.desc⟩ ∧
      (handleSort today col st).1.rowsCache =
        sortRows st.rowsCache col .desc := by
  unfold handleSort
  dsimp only
  rw [h]
  dsimp only
  rw [if_pos rfl]
  refine ⟨?_, ?_⟩
  · rw [updateTable_currentSort]
    rfl
  · rw [updateTable_rowsCache]
    unfold sortStep
    rfl

/-- Third activation: descending clears the sort and re-orders the Row
Cache by `originalIndex`. -/
theorem handleSort_desc (today : CivilDate) (col : Nat) (st : ManagerState)
    (h : st.currentSort = ⟨some col, some Direction.desc⟩) :
    (handleSort today col st).1.currentSort = ⟨none, none⟩ ∧
      (handleSort today col st).1.rowsCache = restoreSort st.rowsCache := by
  unfold handleSort
  dsimp only
  rw [h]
  dsimp only
  rw [if_pos rfl]
  refine ⟨?_, ?_⟩
  · rw [updateTable_currentSort]
    rfl
  · rw [updateTable_rowsCache]
    unfold sortStep
    rfl

/-- **C1.**  For every Row Cache built from `n` source rows and after any
sequence of sort operations (`handleSort` / `sortRows` in any columns and
directions), the multiset of `originalIndex` values in the Row Cache is
exactly `{0, …, n-1}`: sorting permutes the cache in place and never
drops, duplicates, or reassigns an entry. -/
theorem litetable_c1 (today : CivilDate) (headerCount : Nat)
    (rows : List (List SourceCell)) (ops : List SortOp) :
    (((ops.foldl (applySortOp today)
        (initState today headerCount rows).1).rowsCache).map
      RowRecord.originalIndex).Perm (List.range rows.length) := by
  have h := (foldl_applySortOp_perm today ops _).trans
    (initState_rowsCache_perm today headerCount rows)
  rw [← buildCache_map_originalIndex rows]
  exact h.map _

/-- Witness for C1 at a concrete two-row table and a concrete operation
sequence. -/
theorem litetable_c1_witness :
    ((([SortOp.handle 0, SortOp.direct 0 Direction.desc].foldl
        (applySortOp ⟨2025, 4, 15⟩)
        (initState ⟨2025, 4, 15⟩ 1
          [[⟨"b", "b", none, []⟩], [⟨"a", "a", none, []⟩]]).1).rowsCache).map
      RowRecord.originalIndex).Perm (List.range 2) :=
  litetable_c1 ⟨2025, 4, 15⟩ 1
    [[⟨"b", "b", none, []⟩], [⟨"a", "a", none, []⟩]]
    [SortOp.handle 0, SortOp.direct 0 Direction.desc]

/-- **C2.**  From any reachable state, applying the three-state cycle on a
column that is not the currently sorted column — first activation
ascending, second descending, third clearing the sort — returns the Row
Cache to ascending `originalIndex` order, which is the original source
order (the constructor's cache). -/
theorem litetable_c2 (today : CivilDate) (headerCount : Nat)
    (rows : List (List SourceCell)) (ops : List SortOp) (col : Nat)
    (h : (ops.foldl (applySortOp today)
        (initState today headerCount rows).1).currentSort.column ≠ some col) :
    (handleSort today col (handleSort today col (handleSort today col
        (ops.foldl (applySortOp today)
          (initState today headerCount rows).1)).1).1).1.rowsCache =
      buildCache rows := by
  set st := ops.foldl (applySortOp today) (initState today headerCount rows).1
    with hst
  have hperm : st.rowsCache.Perm (buildCache rows) :=
    (foldl_applySortOp_perm today ops _).trans
      (initState_rowsCache_perm today headerCount rows)
  obtain ⟨hc1, hr1⟩ := handleSort_fresh today col st h
  set st1 := (handleSort today col st).1 with hst1
  obtain ⟨hc2, hr2⟩ := handleSort_asc today col st1 hc1
  set st2 := (handleSort today col st1).1 with hst2
  obtain ⟨_, hr3⟩ := handleSort_desc today col st2 hc2
  rw [hr3, hr2, hr1]
  exact restoreSort_eq_of_perm
    (((sortRows_perm _ _ _).trans (sortRows_perm _ _ _)).trans hperm)

/-- Witness for C2: a concrete two-row, one-column table (no auto-sort
fires), no preceding operations, column 0. -/
theorem litetable_c2_witness :
    ((([] : List SortOp).foldl (applySortOp ⟨2025, 4, 15⟩)
        (initState ⟨2025, 4, 15⟩ 1
          [[⟨"b", "b", none, []⟩], [⟨"a", "a", none, []⟩]]).1).currentSort.column
        ≠ some 0) ∧
      (handleSort ⟨2025, 4, 15⟩ 0 (handleSort ⟨2025, 4, 15⟩ 0
          (handleSort ⟨2025, 4, 15⟩ 0
            (([] : List SortOp).foldl (applySortOp ⟨2025, 4, 15⟩)
              (initState ⟨2025, 4, 15⟩ 1
                [[⟨"b", "b", none, []⟩],
                 [⟨"a", "a", none, []⟩]]).1)).1).1).1.rowsCache =
        buildCache [[⟨"b", "b", none, []⟩], [⟨"a", "a", none, []⟩]] :=
  ⟨by decide,
    litetable_c2 ⟨2025, 4, 15⟩ 1
      [[⟨"b", "b", none, []⟩], [⟨"a", "a", none, []⟩]] [] 0 (by decide)⟩

/-! ## Reconciler lemmas -/

theorem fillLoop_alloc (rows : List RowRecord) (pool : List Surface)
    (alloc : Nat) :
    (fillLoop rows pool alloc).2.2 = alloc + (rows.length - pool.length) := by
  induction rows generalizing pool alloc with
  | nil => simp [fillLoop]
  | cons r rows ih =>
    cases pool with
    | nil =>
      simp only [fillLoop, ih, List.length_cons, List.length_nil]
      omega
    | cons tr pool =>
      simp only [fillLoop, ih, List.length_cons, List.length_nil]
      omega

theorem fillLoop_tbody_map (rows : List RowRecord) (pool : List Surface)
    (alloc : Nat) :
    (fillLoop rows pool alloc).1.map Surface.originalIndex =
      rows.map RowRecord.originalIndex := by
  induction rows generalizing pool alloc with
  | nil => simp [fillLoop]
  | cons r rows ih =>
    cases pool with
    | nil => simp [fillLoop, ih, freshSurface]
    | cons tr pool => simp [fillLoop, ih, patchSurface]

theorem fillLoop_pool_len (rows : List RowRecord) (pool : List Surface)
    (alloc : Nat) :
    (fillLoop rows pool alloc).2.1.length = pool.length - rows.length := by
  induction rows generalizing pool alloc with
  | nil => simp [fillLoop]
  | cons r rows ih =>
    cases pool with
    | nil => simp [fillLoop, ih]
    | cons tr pool => simp [fillLoop, ih]

theorem fillLoop_tbody_len (rows : List RowRecord) (pool : List Surface)
    (alloc : Nat) :
    (fillLoop rows pool alloc).1.length = rows.length := by
  have := fillLoop_tbody_map rows pool alloc
  have h1 : ((fillLoop rows pool alloc).1.map Surface.originalIndex).length =
      (rows.map RowRecord.originalIndex).length := by rw [this]
  simpa using h1

theorem foldl_cons_length {α : Type} (l acc : List α) :
    (l.foldl (fun acc tr => tr :: acc) acc).length =
      l.length + acc.length := by
  induction l generalizing acc with
  | nil => simp
  | cons x l ih => simp [ih]; omega

/-- One render cycle allocates exactly the number of visible rows not
covered by the pool plus the detached surfaces — it reuses a pooled
surface whenever one is available and allocates only when the pool has
run empty. -/
theorem renderStep_allocated (visible : List RowRecord) (rs : RenderState) :
    (renderStep visible rs).allocated =
      rs.allocated +
        (visible.length - (rs.tbody.length + rs.rowPool.length)) := by
  unfold renderStep
  dsimp only
  rw [fillLoop_alloc, foldl_cons_length]

theorem renderStep_tbody_len (visible : List RowRecord) (rs : RenderState) :
    (renderStep visible rs).tbody.length = visible.length := by
  unfold renderStep
  dsimp only
  rw [fillLoop_tbody_len]

theorem renderStep_pool_len (visible : List RowRecord) (rs : RenderState) :
    (renderStep visible rs).rowPool.length =
      (rs.tbody.length + rs.rowPool.length) - visible.length := by
  unfold renderStep
  dsimp only
  rw [fillLoop_pool_len, foldl_cons_length]

/-- The conservation invariant: every allocated surface is either
displayed or pooled (none is ever destroyed), so
`allocated = |tbody| + |rowPool|` is preserved by rendering. -/
theorem renderStep_conservation (visible : List RowRecord) (rs : RenderState)
    (h : rs.allocated = rs.tbody.length + rs.rowPool.length) :
    (renderStep visible rs).allocated =
      (renderStep visible rs).tbody.length +
        (renderStep visible rs).rowPool.length := by
  rw [renderStep_allocated, renderStep_tbody_len, renderStep_pool_len]
  omega

/-- **C3.**  Across any sequence of consecutive update cycles in each of
which the visible slice contains at most `K` rows, the total number of
freshly allocated row surfaces never exceeds `K`; moreover each cycle
allocates exactly the part of its slice not covered by detached and
pooled surfaces (it pushes every detached displayed surface onto the pool
without destroying it, pops a pooled surface whenever the pool is
non-empty, and allocates a fresh surface only when the pool is empty). -/
theorem litetable_c3 (K : Nat) (slices : List (List RowRecord))
    (h : ∀ v ∈ slices, v.length ≤ K) :
    (slices.foldl (fun rs v => renderStep v rs)
        ⟨[], [], 0⟩).allocated ≤ K ∧
      ∀ (v : List RowRecord) (rs : RenderState),
        (renderStep v rs).allocated =
          rs.allocated +
            (v.length - (rs.tbody.length + rs.rowPool.length)) := by
  refine ⟨?_, fun v rs => renderStep_allocated v rs⟩
  suffices hgen : ∀ (rs : RenderState),
      rs.allocated = rs.tbody.length + rs.rowPool.length →
      rs.allocated ≤ K →
      (slices.foldl (fun rs v => renderStep v rs) rs).allocated ≤ K by
    exact hgen ⟨[], [], 0⟩ rfl (Nat.zero_le K)
  induction slices with
  | nil => intro rs _ hle; simpa using hle
  | cons v slices ih =>
    intro rs hinv hle
    have hv : v.length ≤ K := h v (List.mem_cons_self v slices)
    refine ih (fun w hw => h w (List.mem_cons_of_mem v hw)) _
      (renderStep_conservation v rs hinv) ?_
    rw [renderStep_allocated]
    omega

/-- Witness for C3: two cycles of one visible row, starting from the
empty reconciler state, allocate at most one surface. -/
theorem litetable_c3_witness :
    (([[⟨0, [], [⟨"x", "x", "", []⟩]⟩],
        [⟨0, [], [⟨"x", "x", "", []⟩]⟩]] : List (List RowRecord)).foldl
        (fun rs v => renderStep v rs) ⟨[], [], 0⟩).allocated ≤ 1 ∧
      ∀ (v : List RowRecord) (rs : RenderState),
        (renderStep v rs).allocated =
          rs.allocated +
            (v.length - (rs.tbody.length + rs.rowPool.length)) :=
  litetable_c3 1
    [[⟨0, [], [⟨"x", "x", "", []⟩]⟩], [⟨0, [], [⟨"x", "x", "", []⟩]⟩]]
    (by decide)

/-! ## Paginator lemmas -/

theorem sortStep_filters (st : ManagerState) :
    (sortStep st).filters = st.filters := by
  unfold sortStep
  cases st.currentSort.column <;> cases st.currentSort.direction <;> rfl

theorem sortStep_displayLimit (st : ManagerState) :
    (sortStep st).displayLimit = st.displayLimit := by
  unfold sortStep
  cases st.currentSort.column <;> cases st.currentSort.direction <;> rfl

theorem sortStep_currentPageIndex (st : ManagerState) :
    (sortStep st).currentPageIndex = st.currentPageIndex := by
  unfold sortStep
  cases st.currentSort.column <;> cases st.currentSort.direction <;> rfl

theorem sortStep_render (st : ManagerState) :
    (sortStep st).render = st.render := by
  unfold sortStep
  cases st.currentSort.column <;> cases st.currentSort.direction <;> rfl

theorem renderStep_tbody_map (visible : List RowRecord) (rs : RenderState) :
    (renderStep visible rs).tbody.map Surface.originalIndex =
      visible.map RowRecord.originalIndex := by
  unfold renderStep
  dsimp only
  rw [fillLoop_tbody_map]

/-- Reading `l[i]` for `i = lo, …, lo + cnt - 1` yields the contiguous
slice of `l`, provided the indices stay in range. -/
theorem range'_filterMap_get? {α : Type} (l : List α) (lo cnt : Nat)
    (h : lo + cnt ≤ l.length) :
    (List.range' lo cnt).filterMap l.get? = (l.drop lo).take cnt := by
  induction cnt generalizing lo with
  | zero => simp
  | succ n ih =>
    rw [List.range'_succ]
    have hlo : lo < l.length := by omega
    have hget : l.get? lo = some l[lo] := by
      rw [List.get?_eq_getElem?, List.getElem?_eq_getElem hlo]
    rw [List.filterMap_cons, hget, ih (lo + 1) (by omega),
      List.drop_eq_getElem_cons hlo]
    rfl

/-- **C4.**  In every update cycle with a finite positive page size `k`,
after the Filtered View `fr` is recomputed and before the visible slice
is computed, `currentPage` is clamped to `1` whenever it exceeds
`totalPages = ⌈fr.length / k⌉` (the first conjunct certifies that
`totalPagesOf` is that ceiling), and the rendered slice is exactly the
half-open index range `[k*(p-1), min(k*p, fr.length))` of the Filtered
View. -/
theorem litetable_c4 (today : CivilDate) (st : ManagerState) (k : Nat)
    (fr : List RowRecord)
    (hk : st.displayLimit = .fin k) (hk0 : 0 < k)
    (hp : 0 < st.currentPageIndex)
    (hf : applyFilters today st.filters (sortStep st).rowsCache =
      .ok fr) :
    (fr.length ≤ k * totalPagesOf fr.length (.fin k) ∧
        ∀ t, fr.length ≤ k * t → totalPagesOf fr.length (.fin k) ≤ t) ∧
      (updateTable today st).2 = none ∧
      (updateTable today st).1.filteredRows = fr ∧
      (updateTable today st).1.currentPageIndex =
        (if totalPagesOf fr.length (.fin k) < st.currentPageIndex then 1
          else st.currentPageIndex) ∧
      (updateTable today st).1.render.tbody.map Surface.originalIndex =
        ((fr.drop
            (k * ((if totalPagesOf fr.length (.fin k) < st.currentPageIndex
              then 1 else st.currentPageIndex) - 1))).take
          (min
              (k * (if totalPagesOf fr.length (.fin k) < st.currentPageIndex
                then 1 else st.currentPageIndex))
              fr.length -
            k * ((if totalPagesOf fr.length (.fin k) < st.currentPageIndex
              then 1 else st.currentPageIndex) - 1))).map
          RowRecord.originalIndex := by
  have hceil : fr.length ≤ k * totalPagesOf fr.length (.fin k) ∧
      ∀ t, fr.length ≤ k * t → totalPagesOf fr.length (.fin k) ≤ t := by
    constructor
    · show fr.length ≤ k * ((fr.length + k - 1) / k)
      have hdm := Nat.div_add_mod (fr.length + k - 1) k
      have hr := Nat.mod_lt (fr.length + k - 1) hk0
      omega
    · intro t ht
      show (fr.length + k - 1) / k ≤ t
      rw [Nat.div_le_iff_le_mul_add_pred hk0]
      omega
  set p : Nat :=
    if totalPagesOf fr.length (.fin k) < st.currentPageIndex then 1
    else st.currentPageIndex with hpdef
  have hpagin : paginate fr.length st.displayLimit st.currentPageIndex =
      (p, .fin (k * (p - 1)), .fin (min (k * p) fr.length)) := by
    rw [hk]
    rfl
  have hlop : k * (p - 1) ≤ fr.length := by
    rw [hpdef]
    split
    · simp
    · rename_i hnotlt
      have hple : st.currentPageIndex ≤ totalPagesOf fr.length (.fin k) := by
        omega
      have h1 : st.currentPageIndex ≤ (fr.length + k - 1) / k := hple
      rw [Nat.le_div_iff_mul_le hk0] at h1
      have h2 : k * (st.currentPageIndex - 1) =
          st.currentPageIndex * k - k := by
        rw [Nat.mul_comm, Nat.sub_one_mul]
      omega
  unfold updateTable
  dsimp only
  rw [sortStep_filters, hf]
  dsimp only
  rw [sortStep_displayLimit, sortStep_currentPageIndex, sortStep_render,
    hpagin]
  dsimp only [loopIndices]
  refine ⟨hceil, rfl, rfl, rfl, ?_⟩
  rw [renderStep_tbody_map]
  have hslice : (List.range' (k * (p - 1))
        (min (k * p) fr.length - k * (p - 1))).filterMap fr.get? =
      (fr.drop (k * (p - 1))).take (min (k * p) fr.length - k * (p - 1)) := by
    apply range'_filterMap_get?
    have hhi : min (k * p) fr.length ≤ fr.length := Nat.min_le_right _ _
    omega
  rw [hslice]

/-- Witness for C4: five filtered rows, page size 2, stale page 9 is
clamped to 1 and rows 0-1 are shown. -/
theorem litetable_c4_witness :
    (0 < 2 ∧ 0 < (9 : Nat)) ∧
      ((updateTable ⟨2025, 4, 15⟩
          { rowsCache := buildCache
              [[⟨"a", "a", none, []⟩], [⟨"b", "b", none, []⟩],
               [⟨"c", "c", none, []⟩], [⟨"d", "d", none, []⟩],
               [⟨"e", "e", none, []⟩]]
            filteredRows := []
            filters := ⟨[], [], []⟩
            currentSort := ⟨none, none⟩
            displayLimit := .fin 2
            currentPageIndex := 9
            render := ⟨[], [], 0⟩ }).1.currentPageIndex = 1 ∧
        (updateTable ⟨2025, 4, 15⟩
          { rowsCache := buildCache
              [[⟨"a", "a", none, []⟩], [⟨"b", "b", none, []⟩],
               [⟨"c", "c", none, []⟩], [⟨"d", "d", none, []⟩],
               [⟨"e", "e", none, []⟩]]
            filteredRows := []
            filters := ⟨[], [], []⟩
            currentSort := ⟨none, none⟩
            displayLimit := .fin 2
            currentPageIndex := 9
            render := ⟨[], [], 0⟩ }).1.render.tbody.map Surface.originalIndex
          = [0, 1]) := by
  constructor
  · exact ⟨by decide, by decide⟩
  · have h := litetable_c4 ⟨2025, 4, 15⟩
      { rowsCache := buildCache
          [[⟨"a", "a", none, []⟩], [⟨"b", "b", none, []⟩],
           [⟨"c", "c", none, []⟩], [⟨"d", "d", none, []⟩],
           [⟨"e", "e", none, []⟩]]
        filteredRows := []
        filters := ⟨[], [], []⟩
        currentSort := ⟨none, none⟩
        displayLimit := .fin 2
        currentPageIndex := 9
        render := ⟨[], [], 0⟩ } 2
      (buildCache
        [[⟨"a", "a", none, []⟩], [⟨"b", "b", none, []⟩],
         [⟨"c", "c", none, []⟩], [⟨"d", "d", none, []⟩],
         [⟨"e", "e", none, []⟩]])
      rfl (by decide) (by decide) (by rfl)
    obtain ⟨-, -, -, hpage, hslice⟩ := h
    constructor
    · rw [hpage]
      rfl
    · rw [hslice]
      decide

/-! ## Empty-key placement under sorting (C5) -/

/-- Inserting into a list in which no `f`-element precedes a
non-`f`-element preserves that shape, provided the ordering never puts an
`f`-element before a non-`f`-element. -/
theorem pairwise_flag_orderedInsert {α : Type} (f : α → Prop)
    (r : α → α → Prop) [DecidableRel r]
    (h1 : ∀ a b, f a → ¬ f b → ¬ r a b)
    (h2 : ∀ a b, ¬ f a → f b → r a b)
    (a : α) (l : List α)
    (hl : l.Pairwise (fun x y => f x → f y)) :
    (List.orderedInsert r a l).Pairwise (fun x y => f x → f y) := by
  induction l with
  | nil => simp
  | cons b l ih =>
    rw [List.orderedInsert]
    split
    · rename_i hr
      refine List.Pairwise.cons ?_ hl
      intro x hx hfa
      have hfb : f b := by
        by_contra hfb
        exact h1 a b hfa hfb hr
      rcases List.mem_cons.mp hx with rfl | hx
      · exact hfb
      · exact (List.rel_of_pairwise_cons hl hx) hfb
    · rename_i hr
      refine List.Pairwise.cons ?_ (ih (List.pairwise_cons.mp hl).2)
      intro x hx hfb
      rcases (List.mem_orderedInsert r).mp hx with rfl | hx
      · by_contra hfa
        exact hr (h2 _ b hfa hfb)
      · exact (List.rel_of_pairwise_cons hl hx) hfb

theorem pairwise_flag_insertionSort {α : Type} (f : α → Prop)
    (r : α → α → Prop) [DecidableRel r]
    (h1 : ∀ a b, f a → ¬ f b → ¬ r a b)
    (h2 : ∀ a b, ¬ f a → f b → r a b)
    (l : List α) :
    (List.insertionSort r l).Pairwise (fun x y => f x → f y) := by
  induction l with
  | nil => simp
  | cons a l ih =>
    exact pairwise_flag_orderedInsert f r h1 h2 a _ ih

/-- **C5 counterexample.**  The claim "a row with an empty sort key is
always last in both ascending and descending order" fails in descending
order: sorting the two-row table `["1", ""]` descending puts the
empty-keyed row first. -/
theorem litetable_c5_counterexample :
    ¬ ((sortRows
        [⟨0, [⟨"1", "1", none, []⟩], [⟨"1", "1", "", []⟩]⟩,
         ⟨1, [⟨"", "", none, []⟩], [⟨"", "", "", []⟩]⟩] 0
        Direction.desc).Pairwise
      (fun a b => cellText a 0 = "" → cellText b 0 = "")) := by
  decide

/-- **C5 (amended).**  For every sort call, rows whose sort-key cell text
is empty are ordered after all non-empty-keyed rows in *ascending* order,
and before all non-empty-keyed rows in *descending* order: the comparator
multiplies the empty-key result by the direction multiplier, so the
placement flips with the direction. -/
theorem litetable_c5 (cache : List RowRecord) (columnIndex : Nat) :
    ((sortRows cache columnIndex Direction.asc).Pairwise
        (fun a b => cellText a columnIndex = "" →
          cellText b columnIndex = "")) ∧
      ((sortRows cache columnIndex Direction.desc).Pairwise
        (fun a b => cellText a columnIndex ≠ "" →
          cellText b columnIndex ≠ "")) := by
  constructor
  · apply pairwise_flag_insertionSort
      (f := fun x => cellText x columnIndex = "")
    · intro a b hfa hfb
      unfold rowCompare
      rw [if_neg (fun h => hfb h.2), if_pos hfa]
      decide
    · intro a b hfa hfb
      unfold rowCompare
      rw [if_neg (fun h => hfa h.1), if_neg hfa, if_pos hfb]
      decide
  · apply pairwise_flag_insertionSort
      (f := fun x => cellText x columnIndex ≠ "")
    · intro a b hfa hfb
      rw [not_not] at hfb
      unfold rowCompare
      rw [if_neg (fun h => hfa h.1), if_neg hfa, if_pos hfb]
      decide
    · intro a b hfa hfb
      rw [not_not] at hfa
      unfold rowCompare
      rw [if_neg (fun h => hfb h.2), if_pos hfa]
      decide

/-- Witness for C5 (amended) at the concrete two-row table used by the
counterexample. -/
theorem litetable_c5_witness :
    ((sortRows
        [⟨0, [⟨"1", "1", none, []⟩], [⟨"1", "1", "", []⟩]⟩,
         ⟨1, [⟨"", "", none, []⟩], [⟨"", "", "", []⟩]⟩] 0
        Direction.asc).Pairwise
      (fun a b => cellText a 0 = "" → cellText b 0 = "")) ∧
      ((sortRows
        [⟨0, [⟨"1", "1", none, []⟩], [⟨"1", "1", "", []⟩]⟩,
         ⟨1, [⟨"", "", none, []⟩], [⟨"", "", "", []⟩]⟩] 0
        Direction.desc).Pairwise
      (fun a b => cellText a 0 ≠ "" → cellText b 0 ≠ "")) :=
  litetable_c5
    [⟨0, [⟨"1", "1", none, []⟩], [⟨"1", "1", "", []⟩]⟩,
     ⟨1, [⟨"", "", none, []⟩], [⟨"", "", "", []⟩]⟩] 0

/-! ## Column-type inference (C6) -/

/-- `find?` returns the element at the first position whose predecessors
all fail the predicate. -/
theorem find?_eq_of_first {α : Type} {p : α → Bool} {l : List α} {i : Nat}
    {a : α} (hget : l.get? i = some a) (hpa : p a = true)
    (hbefore : ∀ j, j < i → ∀ b, l.get? j = some b → p b = false) :
    l.find? p = some a := by
  induction l generalizing i with
  | nil => simp at hget
  | cons x l ih =>
    cases i with
    | zero =>
      simp only [List.get?] at hget
      cases hget
      exact List.find?_cons_of_pos l hpa
    | succ n =>
      have hx : p x = false := hbefore 0 (Nat.succ_pos n) x rfl
      rw [List.find?_cons_of_neg l (by simp [hx])]
      exact ih (by simpa using hget)
        (fun j hj b hb => hbefore (j + 1) (by omega) b (by simpa using hb))

/-- **C6 counterexample.**  The claim says the sample row is the first
row whose target cell is *non-empty*; the code samples the first row
whose target cell *exists*.  On a table whose first row has an empty
cell and whose second row holds a date, the code infers `text` while the
claimed rule infers `date`. -/
theorem litetable_c6_counterexample :
    inferColumnType
        [⟨0, [⟨"", "", none, []⟩], [⟨"", "", "", []⟩]⟩,
         ⟨1, [⟨"01/02/2023", "01/02/2023", none, []⟩],
          [⟨"01/02/2023", "01/02/2023", "", []⟩]⟩] 0 = ColType.text ∧
      inferColumnTypeSpec
        [⟨0, [⟨"", "", none, []⟩], [⟨"", "", "", []⟩]⟩,
         ⟨1, [⟨"01/02/2023", "01/02/2023", none, []⟩],
          [⟨"01/02/2023", "01/02/2023", "", []⟩]⟩] 0 = ColType.date ∧
      ColType.text ≠ ColType.date := by
  refine ⟨by decide, by decide, by decide⟩

/-- **C6 (amended).**  For every sort call the column type is inferred
exactly once, from the first row whose target cell *exists* (not the
first non-empty one): if that cell's text is empty the type is `text`
regardless of later rows; otherwise text matching `DD/MM/YYYY` gives
`date`, else text parsing as a number after normalizing a comma decimal
separator gives `number`, else `text`.  With no row carrying the cell,
the type is `text`. -/
theorem litetable_c6 (cache : List RowRecord) (columnIndex : Nat) :
    ((∀ r ∈ cache, (r.cells.get? columnIndex).isSome = false) →
        inferColumnType cache columnIndex = ColType.text) ∧
      ∀ i r, cache.get? i = some r →
        (r.cells.get? columnIndex).isSome = true →
        (∀ j, j < i → ∀ r', cache.get? j = some r' →
          (r'.cells.get? columnIndex).isSome = false) →
        inferColumnType cache columnIndex =
          (if cellText r columnIndex = "" then ColType.text
            else if dateRe (cellText r columnIndex) then ColType.date
            else if (jsToNumber
                (replaceFirstComma (cellText r columnIndex))).isSome
              then ColType.number
            else ColType.text) := by
  constructor
  · intro hnone
    unfold inferColumnType
    rw [List.find?_eq_none.mpr (fun r hr => by
      rw [hnone r hr]
      exact Bool.false_ne_true)]
  · intro i r hget hcell hbefore
    unfold inferColumnType
    rw [find?_eq_of_first hget hcell hbefore]

/-- Witness for C6 (amended): a concrete one-row date table infers
`date` from row 0. -/
theorem litetable_c6_witness :
    inferColumnType
        [⟨0, [⟨"01/02/2023", "01/02/2023", none, []⟩],
          [⟨"01/02/2023", "01/02/2023", "", []⟩]⟩] 0 = ColType.date := by
  have h := (litetable_c6
      [⟨0, [⟨"01/02/2023", "01/02/2023", none, []⟩],
        [⟨"01/02/2023", "01/02/2023", "", []⟩]⟩] 0).2 0
      ⟨0, [⟨"01/02/2023", "01/02/2023", none, []⟩],
        [⟨"01/02/2023", "01/02/2023", "", []⟩]⟩
      rfl (by decide) (fun j hj r' hr' => by omega)
  rw [h]
  decide

/-! ## Constructor auto-sort (C10) -/

/-- A successful `find?` over `range' s n` finds the least qualifying
index. -/
theorem find?_range'_eq_some {s n : Nat} {p : Nat → Bool} {c : Nat}
    (h : (List.range' s n).find? p = some c) :
    s ≤ c ∧ c < s + n ∧ p c = true ∧
      ∀ j, s ≤ j → j < c → p j = false := by
  induction n generalizing s with
  | zero => simp at h
  | succ n ih =>
    rw [List.range'_succ] at h
    by_cases hs : p s = true
    · rw [List.find?_cons_of_pos _ hs] at h
      cases h
      exact ⟨Nat.le_refl _, by omega, hs, fun j h1 h2 => by omega⟩
    · rw [List.find?_cons_of_neg _ hs] at h
      obtain ⟨h1, h2, h3, h4⟩ := ih h
      refine ⟨by omega, by omega, h3, fun j hj1 hj2 => ?_⟩
      rcases Nat.eq_or_lt_of_le hj1 with rfl | hj
      · rw [Bool.not_eq_true] at hs
        exact hs
      · exact h4 j hj hj2

theorem find?_range'_le {s n : Nat} {p : Nat → Bool} {c : Nat}
    (h1 : s ≤ c) (h2 : c < s + n) (h3 : p c = true) :
    ∃ c', (List.range' s n).find? p = some c' ∧ c' ≤ c := by
  cases hfind : (List.range' s n).find? p with
  | none =>
    rw [List.find?_eq_none] at hfind
    exact absurd h3 (hfind c (List.mem_range'_1.mpr ⟨h1, h2⟩))
  | some c' =>
    obtain ⟨_, _, _, hmin⟩ := find?_range'_eq_some hfind
    refine ⟨c', rfl, ?_⟩
    by_contra hlt
    rw [hmin c h1 (by omega)] at h3
    exact Bool.false_ne_true h3

/-- **C10.**  Construction does not always leave the table in original
order: if any column with index `≥ 2` (and below the header-cell count)
contains a cell whose tag-stripped trimmed text matches `DD/MM/YYYY`,
the constructor initializes the Sort State to the *first* such column
with direction `desc`, and the constructor's update cycle leaves the Row
Cache sorted descending by that column; only when no such column exists
does the table start unsorted, in original order. -/
theorem litetable_c10 (today : CivilDate) (headerCount : Nat)
    (rows : List (List SourceCell)) :
    (autoSortScan headerCount (buildCache rows) = none ↔
        ∀ c, 2 ≤ c → c < headerCount →
          (buildCache rows).any (autoSortCellMatches · c) = false) ∧
      (∀ c, autoSortScan headerCount (buildCache rows) = some c →
        2 ≤ c ∧ c < headerCount ∧
          (buildCache rows).any (autoSortCellMatches · c) = true ∧
          ∀ c', 2 ≤ c' → c' < c →
            (buildCache rows).any (autoSortCellMatches · c') = false) ∧
      (∀ c, 2 ≤ c → c < headerCount →
        (buildCache rows).any (autoSortCellMatches · c) = true →
        ∃ c', autoSortScan headerCount (buildCache rows) = some c' ∧
          c' ≤ c) ∧
      (∀ c, autoSortScan headerCount (buildCache rows) = some c →
        (initState today headerCount rows).1.currentSort =
            ⟨some c, some Direction.desc⟩ ∧
          (initState today headerCount rows).1.rowsCache =
            sortRows (buildCache rows) c Direction.desc) ∧
      (autoSortScan headerCount (buildCache rows) = none →
        (initState today headerCount rows).1.currentSort = ⟨none, none⟩ ∧
          (initState today headerCount rows).1.rowsCache =
            buildCache rows) := by
  have hrange : ∀ c, c ∈ List.range' 2 (headerCount - 2) ↔
      2 ≤ c ∧ c < headerCount := by
    intro c
    rw [List.mem_range'_1]
    omega
  refine ⟨?_, ?_, ?_, ?_, ?_⟩
  · unfold autoSortScan
    rw [List.find?_eq_none]
    constructor
    · intro h c h2 hlt
      have := h c ((hrange c).mpr ⟨h2, hlt⟩)
      rw [Bool.not_eq_true] at this
      exact this
    · intro h c hc
      obtain ⟨h2, hlt⟩ := (hrange c).mp hc
      rw [h c h2 hlt]
      exact Bool.false_ne_true
  · intro c hc
    unfold autoSortScan at hc
    obtain ⟨h1, h2, h3, h4⟩ := find?_range'_eq_some hc
    exact ⟨h1, by omega, h3, fun c' hc1 hc2 => h4 c' hc1 hc2⟩
  · intro c h2 hlt hany
    unfold autoSortScan
    exact find?_range'_le h2 (by omega) hany
  · intro c hc
    unfold initState
    dsimp only
    rw [hc]
    refine ⟨?_, ?_⟩
    · rw [updateTable_currentSort]
    · rw [updateTable_rowsCache]
      unfold sortStep
      rfl
  · intro hc
    unfold initState
    dsimp only
    rw [hc]
    refine ⟨?_, ?_⟩
    · rw [updateTable_currentSort]
    · rw [updateTable_rowsCache]
      unfold sortStep
      rfl

/-- Witness for C10: a concrete table whose column 2 holds a date starts
sorted descending on column 2; the minimality clause is discharged at
`c' = 2`. -/
theorem litetable_c10_witness :
    (initState ⟨2025, 4, 15⟩ 4
        [[⟨"1", "1", none, []⟩, ⟨"x", "x", none, []⟩,
          ⟨"15/04/2025", "15/04/2025", none, []⟩]]).1.currentSort =
      ⟨some 2, some Direction.desc⟩ := by
  have h := (litetable_c10 ⟨2025, 4, 15⟩ 4
      [[⟨"1", "1", none, []⟩, ⟨"x", "x", none, []⟩,
        ⟨"15/04/2025", "15/04/2025", none, []⟩]]).2.2.2.1 2 (by decide)
  exact h.1

/-! ## Filter Engine lemmas (C7, C8) -/

theorem isDateInRange_error (today : CivilDate) (s range : String)
    (h : dateRe s = false) :
    isDateInRange today s range =
      .error "Invalid date format. Use DD/MM/YYYY" := by
  unfold isDateInRange
  rw [h]
  rfl

theorem isDateInRange_error_msg {today : CivilDate} {s range e : String}
    (h : isDateInRange today s range = .error e) :
    e = "Invalid date format. Use DD/MM/YYYY" := by
  unfold isDateInRange at h
  by_cases hre : dateRe s = true
  · rw [hre] at h
    simp at h
  · rw [Bool.not_eq_true] at hre
    rw [hre] at h
    simp at h
    exact h.symm

theorem dateFiltersLoop_error_msg {today : CivilDate} {r : RowRecord}
    {entries : List (Nat × String)} {e : String}
    (h : dateFiltersLoop today r entries = .error e) :
    e = "Invalid date format. Use DD/MM/YYYY" := by
  induction entries with
  | nil => simp [dateFiltersLoop] at h
  | cons p rest ih =>
    obtain ⟨colIndex, filterVal⟩ := p
    unfold dateFiltersLoop at h
    by_cases hv : filterVal = ""
    · rw [if_pos hv] at h
      exact ih h
    · rw [if_neg hv] at h
      cases hd : isDateInRange today (cellText r colIndex) filterVal with
      | error e' =>
        rw [hd] at h
        cases h
        exact isDateInRange_error_msg hd
      | ok b =>
        rw [hd] at h
        cases b
        · cases h
        · exact ih h

theorem dateFiltersLoop_inactive (today : CivilDate) (r : RowRecord)
    (entries : List (Nat × String)) (h : ∀ p ∈ entries, p.2 = "") :
    dateFiltersLoop today r entries = .ok true := by
  induction entries with
  | nil => rfl
  | cons p rest ih =>
    unfold dateFiltersLoop
    obtain ⟨colIndex, filterVal⟩ := p
    rw [if_pos (h _ (List.mem_cons_self _ _))]
    exact ih (fun q hq => h q (List.mem_cons_of_mem _ hq))

/-- When the first active bucketed-date entry meets a cell that does not
match `DD/MM/YYYY`, the date-filter loop throws. -/
theorem dateFiltersLoop_first_error (today : CivilDate) (r : RowRecord)
    (pre post : List (Nat × String)) (col : Nat) (v : String)
    (hpre : ∀ p ∈ pre, p.2 = "") (hv : v ≠ "")
    (hre : dateRe (cellText r col) = false) :
    dateFiltersLoop today r (pre ++ (col, v) :: post) =
      .error "Invalid date format. Use DD/MM/YYYY" := by
  induction pre with
  | nil =>
    rw [List.nil_append]
    unfold dateFiltersLoop
    rw [if_neg hv, isDateInRange_error today _ v hre]
  | cons p pre ih =>
    obtain ⟨colIndex, filterVal⟩ := p
    rw [List.cons_append]
    unfold dateFiltersLoop
    rw [if_pos (hpre _ (List.mem_cons_self _ _))]
    exact ih (fun q hq => hpre q (List.mem_cons_of_mem _ hq))

theorem rangeFiltersLoop_inactive (r : RowRecord)
    (entries : List (Nat × DateRange))
    (h : ∀ p ∈ entries, p.2.fromB = none ∧ p.2.toB = none) :
    rangeFiltersLoop r entries = true := by
  induction entries with
  | nil => rfl
  | cons p rest ih =>
    unfold rangeFiltersLoop
    obtain ⟨colIndex, range⟩ := p
    rw [if_pos (h _ (List.mem_cons_self _ _))]
    exact ih (fun q hq => h q (List.mem_cons_of_mem _ hq))

theorem rangeCheck_malformed (r : RowRecord) (colIndex : Nat)
    (range : DateRange) (hre : dateRe (cellText r colIndex) = false) :
    rangeCheck r colIndex range = false := by
  unfold rangeCheck
  rw [if_pos (show (!dateRe (cellText r colIndex)) = true by rw [hre]; rfl)]

/-- An active date-range filter meeting a cell without the `DD/MM/YYYY`
shape excludes the row (no throw). -/
theorem rangeFiltersLoop_malformed (r : RowRecord)
    (entries : List (Nat × DateRange)) (col : Nat) (rg : DateRange)
    (hmem : (col, rg) ∈ entries)
    (hactive : ¬(rg.fromB = none ∧ rg.toB = none))
    (hre : dateRe (cellText r col) = false) :
    rangeFiltersLoop r entries = false := by
  induction entries with
  | nil => simp at hmem
  | cons p rest ih =>
    obtain ⟨colIndex, range⟩ := p
    unfold rangeFiltersLoop
    rcases List.mem_cons.mp hmem with heq | hmem'
    · cases heq
      rw [if_neg hactive,
        if_pos (show (!rangeCheck r col rg) = true by
          rw [rangeCheck_malformed r col rg hre]; rfl)]
    · by_cases hina : range.fromB = none ∧ range.toB = none
      · rw [if_pos hina]
        exact ih hmem'
      · rw [if_neg hina]
        by_cases hchk : rangeCheck r colIndex range = false
        · rw [if_pos (show (!rangeCheck r colIndex range) = true by
            rw [hchk]; rfl)]
        · rw [if_neg (show ¬(!rangeCheck r colIndex range) = true by
            simp only [Bool.not_eq_true] at hchk ⊢
            simp [Bool.not_eq_false] at hchk
            simp [hchk])]
          exact ih hmem'

theorem valueFiltersLoop_iff (r : RowRecord)
    (entries : List (Nat × String)) :
    valueFiltersLoop r entries = true ↔
      ∀ p ∈ entries, p.2 ≠ "" → cellText r p.1 = p.2 := by
  induction entries with
  | nil => simp [valueFiltersLoop]
  | cons p rest ih =>
    obtain ⟨colIndex, filterVal⟩ := p
    unfold valueFiltersLoop
    by_cases hv : filterVal = ""
    · rw [if_pos hv, ih]
      constructor
      · intro h q hq
        rcases List.mem_cons.mp hq with heq | hq'
        · cases heq
          intro hne
          exact absurd hv hne
        · exact h q hq'
      · intro h q hq
        exact h q (List.mem_cons_of_mem _ hq)
    · rw [if_neg hv]
      by_cases hcell : cellText r colIndex = filterVal
      · rw [if_neg (fun hne => hne hcell), ih]
        constructor
        · intro h q hq
          rcases List.mem_cons.mp hq with heq | hq'
          · cases heq
            intro _
            exact hcell
          · exact h q hq'
        · intro h q hq
          exact h q (List.mem_cons_of_mem _ hq)
      · rw [if_pos hcell]
        constructor
        · intro h
          exact absurd h Bool.false_ne_true
        · intro h
          exact absurd (h (colIndex, filterVal)
            (List.mem_cons_self _ _) hv) hcell

theorem valueFiltersLoop_inactive (r : RowRecord)
    (entries : List (Nat × String)) (h : ∀ p ∈ entries, p.2 = "") :
    valueFiltersLoop r entries = true :=
  (valueFiltersLoop_iff r entries).mpr
    (fun p hp hne => absurd (h p hp) hne)

theorem rowPasses_ok_true_iff (today : CivilDate) (fs : FilterState)
    (r : RowRecord) :
    rowPasses today fs r = .ok true ↔
      (dateFiltersLoop today r fs.currentDateFilters = .ok true ∧
        rangeFiltersLoop r fs.currentDateRangeFilters = true ∧
        valueFiltersLoop r fs.currentValueFilters = true) := by
  unfold rowPasses
  cases hd : dateFiltersLoop today r fs.currentDateFilters with
  | error e =>
    constructor
    · intro h
      exact Except.noConfusion h
    · intro ⟨h, _⟩
      exact Except.noConfusion h
  | ok b =>
    cases b with
    | false =>
      constructor
      · intro h
        injection h with hb
        cases hb
      · intro ⟨h, _⟩
        injection h with hb
        cases hb
    | true =>
      constructor
      · intro h
        injection h with hb
        rw [Bool.and_eq_true] at hb
        exact ⟨rfl, hb⟩
      · intro ⟨_, h2, h3⟩
        rw [h2, h3]
        rfl

theorem rowPasses_error_msg {today : CivilDate} {fs : FilterState}
    {r : RowRecord} {e : String}
    (h : rowPasses today fs r = .error e) :
    e = "Invalid date format. Use DD/MM/YYYY" := by
  unfold rowPasses at h
  cases hd : dateFiltersLoop today r fs.currentDateFilters with
  | error e' =>
    rw [hd] at h
    cases h
    exact dateFiltersLoop_error_msg hd
  | ok b =>
    rw [hd] at h
    cases b <;> cases h

/-- The Bool view of a throwing row predicate. -/
def passBool {α : Type} (f : α → Except String Bool) (a : α) : Bool :=
  match f a with
  | .ok true => true
  | _ => false

theorem exceptFilter_ok {α : Type} (f : α → Except String Bool)
    (l m : List α) (h : exceptFilter f l = .ok m) :
    m = l.filter (passBool f) := by
  induction l generalizing m with
  | nil =>
    cases h
    rfl
  | cons a l ih =>
    unfold exceptFilter at h
    cases hf : f a with
    | error e =>
      rw [hf] at h
      cases h
    | ok b =>
      rw [hf] at h
      cases b
      · rw [List.filter_cons_of_neg (by simp [passBool, hf])]
        exact ih m h
      · rw [List.filter_cons_of_pos (by simp [passBool, hf])]
        cases hrec : exceptFilter f l with
        | error e =>
          rw [hrec] at h
          cases h
        | ok m' =>
          rw [hrec] at h
          cases h
          rw [ih m' hrec]

theorem exceptFilter_error_of_mem {α : Type} (f : α → Except String Bool)
    (l : List α) (a : α) (e : String) (ha : a ∈ l) (hf : f a = .error e)
    (huniq : ∀ x e', f x = .error e' → e' = e) :
    exceptFilter f l = .error e := by
  induction l with
  | nil => simp at ha
  | cons x l ih =>
    unfold exceptFilter
    cases hx : f x with
    | error e' =>
      rw [huniq x e' hx]
    | ok b =>
      have hmem : a ∈ l := by
        rcases List.mem_cons.mp ha with rfl | h
        · rw [hf] at hx
          cases hx
        · exact h
      cases b
      · exact ih hmem
      · rw [ih hmem]
        rfl

theorem exceptFilter_all_ok {α : Type} (f : α → Except String Bool)
    (l : List α) (h : ∀ a ∈ l, f a = .ok true) :
    exceptFilter f l = .ok l := by
  induction l with
  | nil => rfl
  | cons a l ih =>
    unfold exceptFilter
    rw [h a (List.mem_cons_self _ _),
      ih (fun x hx => h x (List.mem_cons_of_mem _ hx))]
    rfl

/-- **C8.**  `applyFilters` produces the Filtered View as the ordered
subsequence of the Row Cache containing exactly the rows on which every
active predicate passes; the three filter kinds combine by logical AND;
inactive entries impose no constraint, so an inactive Filter State
yields every row; and an active categorical filter passes a row iff the
cell's trimmed text equals the filter value exactly, case-sensitively. -/
theorem litetable_c8 (today : CivilDate) (fs : FilterState)
    (cache : List RowRecord) :
    (∀ l, applyFilters today fs cache = .ok l → l.Sublist cache) ∧
      (∀ l, applyFilters today fs cache = .ok l →
        l = cache.filter (passBool (rowPasses today fs))) ∧
      (∀ r, rowPasses today fs r = .ok true ↔
        (dateFiltersLoop today r fs.currentDateFilters = .ok true ∧
          rangeFiltersLoop r fs.currentDateRangeFilters = true ∧
          valueFiltersLoop r fs.currentValueFilters = true)) ∧
      (∀ r, valueFiltersLoop r fs.currentValueFilters = true ↔
        ∀ p ∈ fs.currentValueFilters, p.2 ≠ "" → cellText r p.1 = p.2) ∧
      ((∀ p ∈ fs.currentDateFilters, p.2 = "") →
        (∀ p ∈ fs.currentDateRangeFilters,
          p.2.fromB = none ∧ p.2.toB = none) →
        (∀ p ∈ fs.currentValueFilters, p.2 = "") →
        applyFilters today fs cache = .ok cache) := by
  refine ⟨?_, ?_, ?_, ?_, ?_⟩
  · intro l hl
    rw [exceptFilter_ok _ _ _ hl]
    exact List.filter_sublist cache
  · intro l hl
    exact exceptFilter_ok _ _ _ hl
  · exact rowPasses_ok_true_iff today fs
  · exact fun r => valueFiltersLoop_iff r fs.currentValueFilters
  · intro h1 h2 h3
    apply exceptFilter_all_ok
    intro r _
    rw [rowPasses_ok_true_iff]
    exact ⟨dateFiltersLoop_inactive today r _ h1,
      rangeFiltersLoop_inactive r _ h2, valueFiltersLoop_inactive r _ h3⟩

/-- Witness for C8 at the repository's own test fixture: the categorical
filter `Status = 'Active'` yields exactly the subsequence of matching
rows, and clearing every filter yields the full cache. -/
theorem litetable_c8_witness :
    (∃ l, applyFilters ⟨2025, 4, 15⟩ ⟨[], [], [(1, "Active")]⟩
        [⟨0, [], [⟨"1", "1", "", []⟩, ⟨"Active", "Active", "", []⟩]⟩,
         ⟨1, [], [⟨"2", "2", "", []⟩, ⟨"Inactive", "Inactive", "", []⟩]⟩] =
          .ok l ∧
        l.Sublist
          [⟨0, [], [⟨"1", "1", "", []⟩, ⟨"Active", "Active", "", []⟩]⟩,
           ⟨1, [], [⟨"2", "2", "", []⟩,
            ⟨"Inactive", "Inactive", "", []⟩]⟩] ∧
        l = List.filter (passBool (rowPasses ⟨2025, 4, 15⟩
            ⟨[], [], [(1, "Active")]⟩))
          [⟨0, [], [⟨"1", "1", "", []⟩, ⟨"Active", "Active", "", []⟩]⟩,
           ⟨1, [], [⟨"2", "2", "", []⟩,
            ⟨"Inactive", "Inactive", "", []⟩]⟩]) ∧
      applyFilters ⟨2025, 4, 15⟩ ⟨[], [], [(1, "")]⟩
        [⟨0, [], [⟨"1", "1", "", []⟩, ⟨"Active", "Active", "", []⟩]⟩,
         ⟨1, [], [⟨"2", "2", "", []⟩, ⟨"Inactive", "Inactive", "", []⟩]⟩] =
      .ok [⟨0, [], [⟨"1", "1", "", []⟩, ⟨"Active", "Active", "", []⟩]⟩,
           ⟨1, [], [⟨"2", "2", "", []⟩,
            ⟨"Inactive", "Inactive", "", []⟩]⟩] := by
  constructor
  · refine ⟨[⟨0, [], [⟨"1", "1", "", []⟩, ⟨"Active", "Active", "", []⟩]⟩],
      rfl, ?_, ?_⟩
    · exact (litetable_c8 ⟨2025, 4, 15⟩ ⟨[], [], [(1, "Active")]⟩
        [⟨0, [], [⟨"1", "1", "", []⟩, ⟨"Active", "Active", "", []⟩]⟩,
         ⟨1, [], [⟨"2", "2", "", []⟩,
          ⟨"Inactive", "Inactive", "", []⟩]⟩]).1 _ rfl
    · exact (litetable_c8 ⟨2025, 4, 15⟩ ⟨[], [], [(1, "Active")]⟩
        [⟨0, [], [⟨"1", "1", "", []⟩, ⟨"Active", "Active", "", []⟩]⟩,
         ⟨1, [], [⟨"2", "2", "", []⟩,
          ⟨"Inactive", "Inactive", "", []⟩]⟩]).2.1 _ rfl
  · exact (litetable_c8 ⟨2025, 4, 15⟩ ⟨[], [], [(1, "")]⟩
      [⟨0, [], [⟨"1", "1", "", []⟩, ⟨"Active", "Active", "", []⟩]⟩,
       ⟨1, [], [⟨"2", "2", "", []⟩, ⟨"Inactive", "Inactive", "", []⟩]⟩]).2.2.2.2
      (by decide) (by decide) (by decide)

/-- **C7.**  Filter evaluation is asymmetric in its error handling:
an active bucketed-date filter evaluated against cell text that does not
match `DD/MM/YYYY` raises the date-format error, which propagates out of
the update cycle, whereas an active date-range filter evaluated against
non-matching cell text excludes the row from the Filtered View without
raising. -/
theorem litetable_c7 (today : CivilDate) (fs : FilterState)
    (cache : List RowRecord) (r : RowRecord) :
    ((∃ pre post col v, fs.currentDateFilters = pre ++ (col, v) :: post ∧
        (∀ p ∈ pre, p.2 = "") ∧ v ≠ "" ∧
        dateRe (cellText r col) = false) →
      r ∈ cache →
      applyFilters today fs cache =
        .error "Invalid date format. Use DD/MM/YYYY") ∧
      ((∀ p ∈ fs.currentDateFilters, p.2 = "") →
        ∀ col rg, (col, rg) ∈ fs.currentDateRangeFilters →
        ¬(rg.fromB = none ∧ rg.toB = none) →
        dateRe (cellText r col) = false →
        rowPasses today fs r = .ok false ∧
          ∀ l, applyFilters today fs cache = .ok l → r ∉ l) ∧
      (∀ (st : ManagerState) (e : String),
        applyFilters today st.filters (sortStep st).rowsCache = .error e →
        (updateTable today st).2 = some e) := by
  refine ⟨?_, ?_, ?_⟩
  · intro ⟨pre, post, col, v, hsplit, hpre, hv, hre⟩ hmem
    apply exceptFilter_error_of_mem _ _ r
    · exact hmem
    · unfold rowPasses
      rw [hsplit, dateFiltersLoop_first_error today r pre post col v hpre hv hre]
    · intro x e' hx
      exact rowPasses_error_msg hx
  · intro hdates col rg hmem hactive hre
    have hfalse : rowPasses today fs r = .ok false := by
      unfold rowPasses
      rw [dateFiltersLoop_inactive today r _ hdates,
        rangeFiltersLoop_malformed r _ col rg hmem hactive hre]
      rfl
    refine ⟨hfalse, fun l hl hrl => ?_⟩
    rw [exceptFilter_ok _ _ _ hl] at hrl
    have := (List.mem_filter.mp hrl).2
    unfold passBool at this
    rw [hfalse] at this
    cases this
  · intro st e h
    unfold updateTable
    dsimp only
    rw [sortStep_filters, h]

/-- Witness for C7: the bucket filter `week` on a non-date cell throws;
the range filter on the same cell silently drops the row; the update
cycle surfaces the thrown message. -/
theorem litetable_c7_witness :
    (applyFilters ⟨2025, 4, 15⟩ ⟨[(0, "week")], [], []⟩
        [⟨0, [], [⟨"oops", "oops", "", []⟩]⟩]
        = .error "Invalid date format. Use DD/MM/YYYY") ∧
      rowPasses ⟨2025, 4, 15⟩
        ⟨[], [(0, ⟨some ⟨2025, 4, 1⟩, none⟩)], []⟩
        ⟨0, [], [⟨"oops", "oops", "", []⟩]⟩ = .ok false := by
  constructor
  · exact (litetable_c7 ⟨2025, 4, 15⟩ ⟨[(0, "week")], [], []⟩
      [⟨0, [], [⟨"oops", "oops", "", []⟩]⟩]
      ⟨0, [], [⟨"oops", "oops", "", []⟩]⟩).1
      ⟨[], [], 0, "week", rfl, by decide, by decide, by decide⟩
      (List.mem_cons_self _ _)
  · exact ((litetable_c7 ⟨2025, 4, 15⟩
      ⟨[], [(0, ⟨some ⟨2025, 4, 1⟩, none⟩)], []⟩
      [⟨0, [], [⟨"oops", "oops", "", []⟩]⟩]
      ⟨0, [], [⟨"oops", "oops", "", []⟩]⟩).2.1
      (by decide) 0 ⟨some ⟨2025, 4, 1⟩, none⟩ (List.mem_cons_self _ _)
      (by decide) (by decide)).1

/-- **C9** (code bug): with the display limit set to the unlimited value
(`'all'` → `Infinity`), the code computes
`totalPages = Math.ceil(len / Infinity) = 0` (the claim and spec say
`1`), and the render-loop start index is `Infinity * 0 = NaN`, so the
loop body never runs: the visible slice is empty instead of the entire
Filtered View.  Here a one-row table filtered to one row renders no
surface at all. -/
theorem litetable_c9_bug :
    totalPagesOf 1 JsLimit.inf = 0 ∧
      limitMul JsLimit.inf 0 = JsIdx.nan ∧
      (updateTable ⟨2025, 4, 15⟩
          { rowsCache := buildCache [[⟨"a", "a", none, []⟩]]
            filteredRows := buildCache [[⟨"a", "a", none, []⟩]]
            filters := ⟨[], [], []⟩
            currentSort := ⟨none, none⟩
            displayLimit := JsLimit.inf
            currentPageIndex := 1
            render := ⟨[], [], 0⟩ }).1.filteredRows.length = 1 ∧
      (updateTable ⟨2025, 4, 15⟩
          { rowsCache := buildCache [[⟨"a", "a", none, []⟩]]
            filteredRows := buildCache [[⟨"a", "a", none, []⟩]]
            filters := ⟨[], [], []⟩
            currentSort := ⟨none, none⟩
            displayLimit := JsLimit.inf
            currentPageIndex := 1
            render := ⟨[], [], 0⟩ }).1.render.tbody = [] := by
  refine ⟨rfl, rfl, by decide, by decide⟩

end LiteTable

-- sanity checks of the date model
example : LiteTable.daysFromCivil 1970 1 1 = 0 := by decide
example : LiteTable.daysFromCivil 1970 1 2 = 1 := by decide
example : LiteTable.daysFromCivil 2025 4 15 - LiteTable.daysFromCivil 2025 3 20 = 26 := by decide
example : LiteTable.parseDate "15/04/2025" = some (LiteTable.daysFromCivil 2025 4 15) := by decide
example : LiteTable.parseDate "garbage" = none := by decide
example : LiteTable.dateRe "15/04/2025" = true := by decide
example : LiteTable.dateRe "2025-04-15" = false := by decide
